/-
Verification of the gamma-flood calibration pipeline (`gamma.py`).

This file gives a shallow embedding of the core calibration logic of the
repository: the temperature validity window, the per-pixel event selection
and channel histogram of `quick_gain`, the centroid search, the per-pixel
gain assignment (with the Levenberg-Marquardt fitter treated as an external
oracle), the two-pass neighbour interpolation of the gain map, and the
energy reconstruction / histogramming of `get_spectrum`.  Machine floats of
the source are modelled as rationals wherever the source computes with
exact arithmetic on data values; the FWHM diagnostics, which use `sqrt` and
`log`, are modelled over the reals.

The theorems at the end of the file settle the claims C1-C10 about the
specification of this program.
-/
import Mathlib

namespace Gamma

/-- One detector event, as read from the FITS event table: temperature
(`TEMP`), pixel coordinates (`RAWX`, `RAWY`), pulse height (`PH`),
stimulation flag (`STIM`) and the flattened 3x3 neighbourhood charge
array (`PH_COM`, row-major, 9 entries). -/
structure Event where
  temp : ℚ
  rawx : ℕ
  rawy : ℕ
  ph : ℚ
  stim : Bool
  phCom : List ℚ
deriving DecidableEq

/-- The `Line` class of `gamma.py`: `__init__` merely stores its four
arguments, performing no validation. -/
structure Line where
  source : String
  energy : ℚ
  chan_low : ℕ
  chan_high : ℕ
deriving DecidableEq

/-- `Line.__init__` from the source: assigns the attributes, nothing else. -/
def Line.init (source : String) (energy : ℚ) (chan_low chan_high : ℕ) : Line :=
  { source := source, energy := energy, chan_low := chan_low, chan_high := chan_high }

/-- `am = Line('Am241', 59.54, chan_low=3000, chan_high=6000)`. -/
def am : Line := Line.init "Am241" (5954/100) 3000 6000

/-- `co = Line('Co57', 122.06, chan_low=5000, chan_high=8000)`. -/
def co : Line := Line.init "Co57" (12206/100) 5000 8000

/-- `mask = data['TEMP'] > -20`. -/
def tempMask (events : List Event) : List Bool :=
  events.map (fun e => decide ((-20 : ℚ) < e.temp))

/-- `np.argmax` on a boolean array: index of the first `True` entry, and 0
when no entry is `True` (the first occurrence of the maximal value). -/
def argmaxBool (l : List Bool) : ℕ :=
  if l.any (fun b => b) then l.findIdx (fun b => b) else 0

/-- `START = np.argmax(mask)`. -/
def windowStart (events : List Event) : ℕ :=
  argmaxBool (tempMask events)

/-- `END = len(mask) - np.argmax(mask[::-1])`. -/
def windowEnd (events : List Event) : ℕ :=
  (tempMask events).length - argmaxBool (tempMask events).reverse

/-- `data[START:END]`: the slice of the event table between the window
bounds. -/
def windowEvents (events : List Event) : List Event :=
  (events.take (windowEnd events)).drop (windowStart events)

/-- The per-pixel event selection of `quick_gain`:
`channel = data.field('PH')[START:END][np.nonzero(np.multiply(RAWXmask, RAWYmask))]`,
where `RAWXmask`/`RAWYmask` test the coordinates only. -/
def channelsAt (events : List Event) (x y : ℕ) : List ℚ :=
  ((windowEvents events).filter
    (fun e => decide (e.rawx = x) && decide (e.rawy = y))).map (fun e => e.ph)

/-- The selection the spec describes for `quick_gain` (claim C3): it also
excludes stimulated events and non-positive channels.  Written from the
spec's words, for comparison with `channelsAt`. -/
def channelsAtSpec (events : List Event) (x y : ℕ) : List ℚ :=
  ((windowEvents events).filter
    (fun e => decide (e.rawx = x) && decide (e.rawy = y) &&
      !e.stim && decide (0 < e.ph))).map (fun e => e.ph)

/-- `maxchannel = 10000`. -/
def maxchannel : ℕ := 10000

/-- `bins = np.arange(1, maxchannel)` yields the 9999 edges `1,...,9999`,
hence 9998 histogram bins: `len(spectrum) = 9998`. -/
def specLen : ℕ := 9998

/-- Membership of a channel value in histogram bin `k` of
`np.histogram(channel, bins=np.arange(1, maxchannel))`: bin `k` covers
`[k+1, k+2)`, except the last bin `9997`, which is right-inclusive
(`[9998, 9999]`). -/
def binMemB (k : ℕ) (c : ℚ) : Bool :=
  if k = 9997 then decide (((9998 : ℕ) : ℚ) ≤ c) && decide (c ≤ ((9999 : ℕ) : ℚ))
  else decide (((k + 1 : ℕ) : ℚ) ≤ c) && decide (c < ((k + 2 : ℕ) : ℚ))

/-- `spectrum, edges = np.histogram(channel, bins=bins, range=(0, maxchannel))`:
counts per channel bin. -/
def spectrumOf (channels : List ℚ) (k : ℕ) : ℕ :=
  (channels.filter (fun c => binMemB k c)).length

/-- The Python exceptions the embedded fragments can raise. -/
inductive PyErr where
  | valueError
  | indexError
  | nameError
deriving DecidableEq

/-- Result of a Python computation: a value, or a raised exception. -/
inductive Res (α : Type) where
  | ok : α → Res α
  | err : PyErr → Res α
deriving DecidableEq

/-- The fold underlying `np.argmax`: keep the earlier index on ties,
replace only on a strictly larger value. -/
def pickMax (f : ℕ → ℕ) (b : ℕ) (l : List ℕ) : ℕ :=
  l.foldl (fun acc j => if f j > f acc then j else acc) b

/-- `centroid = np.argmax(spectrum[line.chan_low:line.chan_high]) + line.chan_low`.
The slice clips at `len(spectrum)`; `np.argmax` of an empty slice raises a
`ValueError`.  Returns the absolute channel index of the first maximum. -/
def centroidOf (spec : ℕ → ℕ) (lo hi : ℕ) : Res ℕ :=
  match List.range' lo (min hi specLen - lo) with
  | [] => .err .valueError
  | i :: rest => .ok (pickMax spec i rest)

/-- The Levenberg-Marquardt fitter, treated as an external capability: given
the centroid (which fixes the initial guess and the fit window) and the
channel spectrum, it returns `some mean` when the fit produced a usable
parameter covariance matrix (`fit_info['param_cov'] is not None`) together
with the fitted Gaussian mean, and `none` otherwise. -/
def Oracle : Type := ℕ → (ℕ → ℕ) → Option ℚ

/-- The body of the per-pixel loop of `quick_gain`: if the pixel has no
selected events, nothing is written (the gain entry stays 0); otherwise the
channel histogram is built, the centroid located in the line's search
window (raising `ValueError` on an empty slice), the fit window
`spectrum[fit_channels]` indexed (raising `IndexError` when
`centroid + 199` reaches past the spectrum) and, iff the fitter returns a
covariance matrix, `gain[y, x] = line.energy / g.mean`. -/
def pixelGain (line : Line) (channels : List ℚ) (orc : Oracle) : Res ℚ :=
  if channels.isEmpty then .ok 0
  else
    match centroidOf (spectrumOf channels) line.chan_low line.chan_high with
    | .err e => .err e
    | .ok c =>
      if specLen < c + 200 then .err .indexError
      else
        match orc c (spectrumOf channels) with
        | none => .ok 0
        | some m => .ok (line.energy / m)

/-- A pixel of the 32x32 grid, `(row, col)` alias `(RAWY, RAWX)`. -/
abbrev Pix : Type := Fin 32 × Fin 32

/-- The per-pixel outcome of the fitting stage of `quick_gain` at pixel
`p = (y, x)` (the source writes `gain[y, x]`, looping `x` over `RAWX` and
`y` over `RAWY`). -/
def gainAt (events : List Event) (line : Line) (orc : Oracle) (p : Pix) : Res ℚ :=
  pixelGain line (channelsAt events p.2.val p.1.val) orc

/-- The gain map after the fitting stage of `quick_gain` (before
interpolation): `gain = np.zeros((32, 32))` with `gain[y, x]` written by
`pixelGain`; entries of error outcomes are irrelevant (the source would
have raised), and are mapped to the 0 sentinel. -/
def gainMap0 (events : List Event) (line : Line) (orc : Oracle) : Pix → ℚ :=
  fun p => match gainAt events line orc p with
    | .ok v => v
    | .err _ => 0

/-- Reading the one-ring zero-padded 32x32 grid at integer coordinates:
`newgain[1:33, 1:33] = gain` (equivalently `gain_buffed` in
`get_spectrum`), i.e. the original grid shifted by one, zero outside. -/
def gZ (g : Pix → ℚ) (i j : ℤ) : ℚ :=
  if h : 0 ≤ i ∧ i < 32 ∧ 0 ≤ j ∧ j < 32 then
    g (⟨i.toNat, by omega⟩, ⟨j.toNat, by omega⟩)
  else 0

/-- The nine offsets of a 3x3 neighbourhood, row-major. -/
def offsets : List (ℤ × ℤ) :=
  [(-1, -1), (-1, 0), (-1, 1), (0, -1), (0, 0), (0, 1), (1, -1), (1, 0), (1, 1)]

/-- `temp = newgain[x[0]:x[0]+3, x[1]:x[1]+3]`: the 3x3 neighbourhood of
pixel `p` in the padded snapshot grid, flattened row-major. -/
def nbhd (g : Pix → ℚ) (p : Pix) : List ℚ :=
  offsets.map (fun d => gZ g ((p.1.val : ℤ) + d.1) ((p.2.val : ℤ) + d.2))

/-- `np.count_nonzero`. -/
def countNZ (l : List ℚ) : ℕ :=
  (l.filter (fun q => decide (q ≠ 0))).length

/-- `np.sum(temp) / np.count_nonzero(temp)`: the value written by an
interpolation fill. -/
def fillVal (g : Pix → ℚ) (p : Pix) : ℚ :=
  (nbhd g p).sum / (countNZ (nbhd g p) : ℚ)

/-- One interpolation pass described pointwise: a pixel still at the 0
sentinel whose padded 3x3 neighbourhood has a nonzero entry receives
`fillVal`; every other pixel keeps its value. -/
def interpPass (g : Pix → ℚ) : Pix → ℚ :=
  fun p => if g p = 0 ∧ countNZ (nbhd g p) ≠ 0 then fillVal g p else g p

/-- Write `v` into cell `x` of the live gain array. -/
def updatePix (f : Pix → ℚ) (x : Pix) (v : ℚ) : Pix → ℚ :=
  fun p => if p = x then v else f p

/-- The `for x in empty` loop of one interpolation pass of `quick_gain`:
`g` is the snapshot (`newgain`, read-only), the fold state is the live
`gain` array being written.  For each listed pixel, if its snapshot
neighbourhood has a nonzero entry, the fill value (computed from the
snapshot only) is written. -/
def interpLoop (g : Pix → ℚ) (l : List Pix) (cur : Pix → ℚ) : Pix → ℚ :=
  l.foldl
    (fun acc x =>
      if countNZ (nbhd g x) ≠ 0 then updatePix acc x (fillVal g x) else acc)
    cur

/-- All 1024 pixels in row-major order (`np.transpose(np.nonzero(...))`
enumerates indices in this order). -/
def allPixels : List Pix :=
  (List.finRange 32).flatMap (fun i => (List.finRange 32).map (fun j => (i, j)))

/-- `empty = np.transpose(np.nonzero(gain == 0.0))`: the pixels still at
the 0 sentinel, row-major. -/
def emptyList (g : Pix → ℚ) : List Pix :=
  allPixels.filter (fun p => decide (g p = 0))

/-- One full interpolation pass exactly as coded: snapshot `gain` into the
padded `newgain`, then loop over the sentinel pixels. -/
def codePass (g : Pix → ℚ) : Pix → ℚ :=
  interpLoop g (emptyList g) g

/-- `quick_gain`: the fitting stage followed by exactly two interpolation
passes (`for _ in range(2)`). -/
def quick_gain (events : List Event) (line : Line) (orc : Oracle) : Pix → ℚ :=
  codePass (codePass (gainMap0 events line orc))

/-- One term of the reconstruction sum of `get_spectrum`: cell `(i, j)` of
`np.multiply(np.multiply(mask, temp), gain[row:row+3, col:col+3])`, where
`temp = event['PH_COM'].reshape(3, 3)` (so `temp[i][j] = PH_COM[3*i+j]`),
`mask = (temp > 0)`, and the padded gain index `row + i` is original row
`row + i - 1`. -/
def cell (g : Pix → ℚ) (e : Event) (i j : ℕ) : ℚ :=
  let q := e.phCom.getD (3 * i + j) 0
  if 0 < q then q * gZ g ((e.rawy : ℤ) + i - 1) ((e.rawx : ℤ) + j - 1) else 0

/-- The energy assigned to one event by `get_spectrum`: `np.sum` of the
masked 3x3 elementwise product, row-major. -/
def eventEnergy (g : Pix → ℚ) (e : Event) : ℚ :=
  cell g e 0 0 + cell g e 0 1 + cell g e 0 2 +
  cell g e 1 0 + cell g e 1 1 + cell g e 1 2 +
  cell g e 2 0 + cell g e 2 1 + cell g e 2 2

/-- Membership of a value in bin `k` of
`np.histogram(values, bins=nbins, range=(lo, hi))`: `nbins` equal bins over
`[lo, hi]`, the last bin right-inclusive, values outside dropped. -/
def histBinB (nbins : ℕ) (lo hi : ℚ) (k : ℕ) (v : ℚ) : Bool :=
  let w := (hi - lo) / (nbins : ℚ)
  decide (lo + (k : ℚ) * w ≤ v) &&
    (if k + 1 = nbins then decide (v ≤ hi) else decide (v < lo + ((k : ℚ) + 1) * w))

/-- `counts, edges = np.histogram(values, bins=nbins, range=(lo, hi))`. -/
def histCounts (vals : List ℚ) (nbins : ℕ) (lo hi : ℚ) : List ℕ :=
  (List.range nbins).map (fun k => (vals.filter (fun v => histBinB nbins lo hi k v)).length)

/-- `midpoints = (edges[:-1] + edges[1:]) / 2`. -/
def histMidpoints (nbins : ℕ) (lo hi : ℚ) : List ℚ :=
  (List.range nbins).map (fun k =>
    lo + (k : ℚ) * ((hi - lo) / (nbins : ℚ)) + ((hi - lo) / (nbins : ℚ)) / 2)

/-- `get_spectrum` exactly as coded: the event loop appends to the name
`energy_list`, which is undefined in the function (and in the module), so
the first iteration raises a `NameError`; only when the validity window is
empty does the loop body never run, in which case the always-empty list
`energies` is histogrammed. -/
def get_spectrum (events : List Event) (g : Pix → ℚ) (nbins : ℕ) (lo hi : ℚ) :
    Res (List ℕ × List ℚ) :=
  if (windowEvents events).isEmpty then
    .ok (histCounts [] nbins lo hi, histMidpoints nbins lo hi)
  else .err .nameError

/-- Modelled from the spec: the intended `get_spectrum` (spec section 4.4
and the design note on the undefined `energy_list`), in which each window
event's reconstructed energy is accumulated and histogrammed.  The energy
expression itself is the one present in the source (`eventEnergy`); only
the accumulation into the histogrammed list is taken from the spec. -/
def get_spectrum_intended (events : List Event) (g : Pix → ℚ) (nbins : ℕ) (lo hi : ℚ) :
    List ℕ × List ℚ :=
  (histCounts ((windowEvents events).map (eventEnergy g)) nbins lo hi,
    histMidpoints nbins lo hi)

noncomputable section

/-- `2 * np.sqrt(2 * np.log(2))`, the sigma-to-FWHM factor (also the value
of astropy's `GAUSSIAN_SIGMA_TO_FWHM`, used by `g.fwhm`). -/
def gaussSigmaToFwhm : ℝ := 2 * Real.sqrt (2 * Real.log 2)

/-- The data the plotting branch of `quick_gain` reads off a successful
fit: the fitted mean and stddev and the 3x3 parameter covariance matrix
`fit_info['param_cov']` (parameter order: amplitude, mean, stddev). -/
structure FitDiag where
  mean : ℝ
  stddev : ℝ
  cov : Fin 3 → Fin 3 → ℝ

/-- astropy's `g.fwhm = GAUSSIAN_SIGMA_TO_FWHM * stddev`. -/
def fwhmOf (d : FitDiag) : ℝ := gaussSigmaToFwhm * d.stddev

/-- `sigma_err = np.diag(fit_g.fit_info['param_cov'])[2]` — note this is
the variance `Var(sigma) = cov[2][2]`, no square root is taken. -/
def sigma_err (d : FitDiag) : ℝ := d.cov 2 2

/-- `fwhm_err = 2 * np.sqrt(2 * np.log(2)) * sigma_err` as coded. -/
def fwhm_err (d : FitDiag) : ℝ := gaussSigmaToFwhm * sigma_err d

/-- `mean_err = np.diag(fit_g.fit_info['param_cov'])[1]` — again the
variance `Var(mean) = cov[1][1]`, no square root. -/
def mean_err (d : FitDiag) : ℝ := d.cov 1 1

/-- `frac_err = np.sqrt(np.square(fwhm_err) + np.square(g.fwhm * mean_err / g.mean)) / g.mean`
as coded. -/
def frac_err (d : FitDiag) : ℝ :=
  Real.sqrt ((fwhm_err d) ^ 2 + (fwhmOf d * mean_err d / d.mean) ^ 2) / d.mean

/-- `frac_err * line.energy`: the displayed energy uncertainty (in keV;
the source scales by 1000 for the eV label). -/
def energy_err (d : FitDiag) (energy : ℝ) : ℝ := frac_err d * energy

/-- The FWHM uncertainty as the spec's formula states it (claim C2):
`fwhm_err = 2 * sqrt(2 * ln2) * sqrt(Var(sigma))`.  Written from the
spec's words, for comparison with `fwhm_err`. -/
def fwhm_err_claim (d : FitDiag) : ℝ :=
  gaussSigmaToFwhm * Real.sqrt (d.cov 2 2)

/-- The fractional uncertainty as the spec's formula states it (claim C2):
`frac_err = sqrt(fwhm_err^2 + (fwhm * sqrt(Var(mean)) / mean)^2) / mean`.
Written from the spec's words, for comparison with `frac_err`. -/
def frac_err_claim (d : FitDiag) : ℝ :=
  Real.sqrt ((fwhm_err_claim d) ^ 2 +
    (fwhmOf d * Real.sqrt (d.cov 1 1) / d.mean) ^ 2) / d.mean

/-- A concrete fit outcome: mean 1, stddev 1, `Var(sigma) = cov[2][2] = 4`
and all other covariance entries 0. -/
def diag0 : FitDiag :=
  { mean := 1, stddev := 1,
    cov := fun i j => if i = 2 ∧ j = 2 then 4 else 0 }

end

/-! ### Concrete fixtures used by witnesses and counterexamples -/

/-- An event whose temperature signal is invalid (`TEMP = -30 ≤ -20`). -/
def evCold : Event :=
  { temp := -30, rawx := 0, rawy := 0, ph := 500, stim := false,
    phCom := [0, 0, 0, 0, 0, 0, 0, 0, 0] }

/-- A stimulated event (`STIM = 1`) at pixel `(5, 5)` with channel 4200,
inside the validity window. -/
def evStim : Event :=
  { temp := 0, rawx := 5, rawy := 5, ph := 4200, stim := true,
    phCom := [0, 0, 0, 0, 0, 0, 0, 0, 0] }

/-- A plain valid photon event at pixel `(0, 0)` with channel 1. -/
def evA : Event :=
  { temp := 0, rawx := 0, rawy := 0, ph := 1, stim := false,
    phCom := [0, 0, 0, 0, 0, 0, 0, 0, 0] }

/-- A valid event at pixel `(0, 0)` whose neighbourhood charge array has a
single positive entry 5 at the centre. -/
def evC1 : Event :=
  { temp := 0, rawx := 0, rawy := 0, ph := 5, stim := false,
    phCom := [0, 0, 0, 0, 5, 0, 0, 0, 0] }

/-- A fitter that never produces a covariance matrix. -/
def orcNone : Oracle := fun _ _ => none

/-- A fitter that always succeeds with fitted mean `-1`. -/
def orcNeg : Oracle := fun _ _ => some (-1)

/-- A fitter that always succeeds with fitted mean `1`. -/
def orcPos : Oracle := fun _ _ => some 1

/-- A line whose tiny search window `[0, 2)` and integer energy keep
concrete evaluation cheap. -/
def lineSmall : Line := Line.init "Test" 2 0 2

/-- A malformed line with `chan_low = 6000 > chan_high = 3000`. -/
def badLine : Line := Line.init "Bad" (12206/100) 6000 3000

/-- A malformed line with `chan_low = chan_high = 3000`. -/
def badLineEq : Line := Line.init "BadEq" 10 3000 3000

/-- A well-formed line (`search_low = 9790 < search_high = 9810`) whose
search window sits at the top of the channel histogram. -/
def lineHi : Line := Line.init "Hi" 150 9790 9810

/-- The all-ones gain map. -/
def g1 : Pix → ℚ := fun _ => 1

/-- The all-zero gain map. -/
def gZero : Pix → ℚ := fun _ => 0

/-- The interpolation scenario of the spec: pixel `(1, 1)` has gain 0; its
four edge-adjacent neighbours have gain 2; its four diagonal neighbours
have gain 0. -/
def gScen : Pix → ℚ := fun p =>
  if (p.1.val, p.2.val) ∈ [((0 : ℕ), (1 : ℕ)), (1, 0), (1, 2), (2, 1)] then 2 else 0

/-- Pixel `(1, 1)`, the centre of the interpolation scenario. -/
def pScen : Pix := ((1 : Fin 32), (1 : Fin 32))

/-- Pixel `(0, 0)`. -/
def p00 : Pix := ((0 : Fin 32), (0 : Fin 32))

/-- Pixel `(0, 1)`, one of the nonzero neighbours of the scenario. -/
def p01 : Pix := ((0 : Fin 32), (1 : Fin 32))

/-! ### Helper lemmas -/

theorem gZ_pix (g : Pix → ℚ) (p : Pix) : gZ g (p.1.val : ℤ) (p.2.val : ℤ) = g p := by
  rcases p with ⟨i, j⟩
  have h : (0 : ℤ) ≤ (i.val : ℤ) ∧ (i.val : ℤ) < 32 ∧
      (0 : ℤ) ≤ (j.val : ℤ) ∧ (j.val : ℤ) < 32 := by
    refine ⟨Int.ofNat_nonneg _, ?_, Int.ofNat_nonneg _, ?_⟩ <;> exact_mod_cast (by omega : _)
  rw [gZ, dif_pos h]
  congr 1

theorem center_mem_nbhd (g : Pix → ℚ) (p : Pix) : g p ∈ nbhd g p := by
  refine List.mem_map.mpr ⟨((0 : ℤ), (0 : ℤ)), by simp [offsets], ?_⟩
  simpa using gZ_pix g p

theorem countNZ_eq_zero_iff (l : List ℚ) : countNZ l = 0 ↔ ∀ q ∈ l, q = 0 := by
  simp [countNZ, List.length_eq_zero, List.filter_eq_nil_iff]

theorem sum_filter_nz (l : List ℚ) :
    (l.filter (fun q => decide (q ≠ 0))).sum = l.sum := by
  induction l with
  | nil => rfl
  | cons a t ih =>
    rw [List.filter_cons]
    by_cases ha : a = 0
    · rw [if_neg (by simp [ha]), ih, ha, List.sum_cons, zero_add]
    · rw [if_pos (by simp [ha]), List.sum_cons, List.sum_cons, ih]

theorem interpLoop_spec (g : Pix → ℚ) (l : List Pix) (cur : Pix → ℚ) (p : Pix) :
    interpLoop g l cur p =
      if p ∈ l ∧ countNZ (nbhd g p) ≠ 0 then fillVal g p else cur p := by
  induction l generalizing cur with
  | nil => simp [interpLoop]
  | cons x t ih =>
    rw [show interpLoop g (x :: t) cur =
      interpLoop g t
        (if countNZ (nbhd g x) ≠ 0 then updatePix cur x (fillVal g x) else cur) from rfl]
    rw [ih]
    by_cases hpx : p = x
    · subst hpx
      by_cases hc : countNZ (nbhd g p) ≠ 0
      · by_cases hpt : p ∈ t
        · simp [hpt, hc, updatePix]
        · simp [hpt, hc, updatePix]
      · simp [hc]
    · by_cases hc : countNZ (nbhd g p) ≠ 0
      · by_cases hpt : p ∈ t
        · simp [hpt, hc, List.mem_cons]
        · by_cases hcx : countNZ (nbhd g x) ≠ 0
          · simp [hpt, hc, hcx, updatePix, hpx, List.mem_cons]
          · simp [hpt, hc, hcx, hpx, List.mem_cons]
      · by_cases hcx : countNZ (nbhd g x) ≠ 0
        · simp [hc, hcx, updatePix, hpx]
        · simp [hc, hcx]

theorem mem_allPixels (p : Pix) : p ∈ allPixels := by
  rcases p with ⟨i, j⟩
  simp only [allPixels, List.mem_flatMap]
  exact ⟨i, List.mem_finRange i, List.mem_map.mpr ⟨j, List.mem_finRange j, rfl⟩⟩

theorem mem_emptyList (g : Pix → ℚ) (p : Pix) : p ∈ emptyList g ↔ g p = 0 := by
  simp [emptyList, List.mem_filter, mem_allPixels]

theorem codePass_eq_interpPass (g : Pix → ℚ) : codePass g = interpPass g := by
  funext p
  rw [codePass, interpLoop_spec]
  simp only [mem_emptyList, interpPass]

theorem pickMax_mem (f : ℕ → ℕ) (b : ℕ) (l : List ℕ) : pickMax f b l ∈ b :: l := by
  induction l generalizing b with
  | nil => simp [pickMax]
  | cons j t ih =>
    rw [show pickMax f b (j :: t) = pickMax f (if f j > f b then j else b) t from rfl]
    rcases List.mem_cons.mp (ih (if f j > f b then j else b)) with h1 | h2
    · rw [h1]
      by_cases hj : f j > f b
      · simp [hj, List.mem_cons]
      · simp [hj, List.mem_cons]
    · exact List.mem_cons_of_mem _ (List.mem_cons_of_mem _ h2)

theorem centroidOf_err (spec : ℕ → ℕ) (lo hi : ℕ) (h : hi ≤ lo) :
    centroidOf spec lo hi = .err .valueError := by
  have h0 : min hi specLen - lo = 0 := by
    have := Nat.min_le_left hi specLen; omega
  unfold centroidOf
  rw [h0]
  rfl

theorem centroidOf_ok (spec : ℕ → ℕ) (lo hi : ℕ) (h1 : lo < hi) (h2 : hi ≤ 9799) :
    ∃ c, centroidOf spec lo hi = .ok c ∧ lo ≤ c ∧ c < hi := by
  have hn : min hi specLen - lo = hi - lo := by unfold specLen; omega
  unfold centroidOf
  rw [hn]
  cases hr : List.range' lo (hi - lo) with
  | nil =>
    exfalso
    have hlen : (List.range' lo (hi - lo)).length = hi - lo := List.length_range' lo 1 _
    rw [hr] at hlen
    simp at hlen
    omega
  | cons i rest =>
    refine ⟨pickMax spec i rest, rfl, ?_⟩
    have hmem : pickMax spec i rest ∈ i :: rest := pickMax_mem spec i rest
    rw [← hr] at hmem
    have := List.mem_range'_1.mp hmem
    omega

theorem pixelGain_nil (line : Line) (orc : Oracle) : pixelGain line [] orc = .ok 0 := rfl

theorem pixelGain_err_badline (line : Line) (ch : List ℚ) (orc : Oracle)
    (h : line.chan_high ≤ line.chan_low) (hne : ch ≠ []) :
    pixelGain line ch orc = .err .valueError := by
  unfold pixelGain
  rw [if_neg (by simpa using hne), centroidOf_err _ _ _ h]

theorem pixelGain_success (line : Line) (ch : List ℚ) (orc : Oracle) (c : ℕ) (m : ℚ)
    (hne : ch ≠ []) (hc : centroidOf (spectrumOf ch) line.chan_low line.chan_high = .ok c)
    (hcb : ¬ specLen < c + 200) (ho : orc c (spectrumOf ch) = some m) :
    pixelGain line ch orc = .ok (line.energy / m) := by
  unfold pixelGain
  rw [if_neg (by simpa using hne), hc]
  dsimp only
  rw [if_neg hcb, ho]

theorem pixelGain_nocov (line : Line) (ch : List ℚ) (orc : Oracle) (c : ℕ)
    (hne : ch ≠ []) (hc : centroidOf (spectrumOf ch) line.chan_low line.chan_high = .ok c)
    (hcb : ¬ specLen < c + 200) (ho : orc c (spectrumOf ch) = none) :
    pixelGain line ch orc = .ok 0 := by
  unfold pixelGain
  rw [if_neg (by simpa using hne), hc]
  dsimp only
  rw [if_neg hcb, ho]

theorem pixelGain_overflow (line : Line) (ch : List ℚ) (orc : Oracle) (c : ℕ)
    (hne : ch ≠ []) (hc : centroidOf (spectrumOf ch) line.chan_low line.chan_high = .ok c)
    (hcb : specLen < c + 200) :
    pixelGain line ch orc = .err .indexError := by
  unfold pixelGain
  rw [if_neg (by simpa using hne), hc]
  dsimp only
  rw [if_pos hcb]

theorem pixelGain_ok_cases (line : Line) (ch : List ℚ) (orc : Oracle) (v : ℚ)
    (h : pixelGain line ch orc = .ok v) :
    v = 0 ∨ ∃ c m, centroidOf (spectrumOf ch) line.chan_low line.chan_high = .ok c ∧
      orc c (spectrumOf ch) = some m ∧ v = line.energy / m := by
  unfold pixelGain at h
  by_cases he : ch.isEmpty
  · rw [if_pos he] at h
    simp at h
    exact Or.inl h.symm
  · rw [if_neg he] at h
    cases hc : centroidOf (spectrumOf ch) line.chan_low line.chan_high with
    | err e => rw [hc] at h; cases h
    | ok c =>
      rw [hc] at h
      dsimp only at h
      by_cases hix : specLen < c + 200
      · rw [if_pos hix] at h; cases h
      · rw [if_neg hix] at h
        cases ho : orc c (spectrumOf ch) with
        | none => rw [ho] at h; simp at h; exact Or.inl h.symm
        | some m =>
          rw [ho] at h; simp at h
          exact Or.inr ⟨c, m, rfl, ho, h.symm⟩

theorem gainMap0_eq (events : List Event) (line : Line) (orc : Oracle) (p : Pix) (v : ℚ)
    (h : gainAt events line orc p = .ok v) : gainMap0 events line orc p = v := by
  unfold gainMap0
  rw [h]

theorem gainAt_evA_lineSmall (orc : Oracle) (m : ℚ)
    (h : orc 0 (spectrumOf [1]) = some m) :
    gainAt [evA] lineSmall orc p00 = .ok (lineSmall.energy / m) := by
  have h1 : channelsAt [evA] 0 0 = [1] := by decide
  have hc : centroidOf (spectrumOf [1]) lineSmall.chan_low lineSmall.chan_high = .ok 0 := by
    decide
  show pixelGain lineSmall (channelsAt [evA] 0 0) orc = _
  rw [h1]
  exact pixelGain_success lineSmall [1] orc 0 m (by decide) hc (by decide) h

theorem gZ_nonneg (g : Pix → ℚ) (hg : ∀ p, 0 ≤ g p) (i j : ℤ) : 0 ≤ gZ g i j := by
  unfold gZ
  split
  · exact hg _
  · exact le_refl 0

theorem nbhd_nonneg (g : Pix → ℚ) (hg : ∀ p, 0 ≤ g p) (p : Pix) :
    ∀ q ∈ nbhd g p, 0 ≤ q := by
  intro q hq
  rcases List.mem_map.mp hq with ⟨d, _, rfl⟩
  exact gZ_nonneg g hg _ _

theorem interpPass_nonneg (g : Pix → ℚ) (hg : ∀ p, 0 ≤ g p) (p : Pix) :
    0 ≤ interpPass g p := by
  unfold interpPass
  split
  · exact div_nonneg (List.sum_nonneg (nbhd_nonneg g hg p)) (Nat.cast_nonneg _)
  · exact hg p

/-! ### Claim theorems -/

/-- C1: `get_spectrum` is meant to compute, for every valid event, the
energy `Σ (mask × charge × padded gain)` over the 3x3 neighbourhood and
histogram these energies.  The energy expression in the source does
compute exactly that (`eventEnergy g1 evC1 = 5`), and the intended
pipeline histograms it; but the code as written appends each energy to the
undefined name `energy_list`, so on any window containing at least one
event the function raises a `NameError` instead of histogramming
(`energies` stays empty forever). -/
theorem c1_get_spectrum_raises_nameerror :
    get_spectrum [evC1] g1 1 0 10 = .err .nameError ∧
    (windowEvents [evC1]).length = 1 ∧
    eventEnergy g1 evC1 = 5 ∧
    get_spectrum_intended [evC1] g1 1 0 10 = ([1], [5]) := by
  have he : eventEnergy g1 evC1 = 5 := by
    show (0 : ℚ) + 0 + 0 + 0 + 5 * 1 + 0 + 0 + 0 + 0 = 5
    norm_num
  refine ⟨by decide, by decide, he, ?_⟩
  unfold get_spectrum_intended
  rw [show windowEvents [evC1] = [evC1] from by decide]
  simp only [List.map_cons, List.map_nil]
  rw [he]
  unfold histCounts histMidpoints histBinB
  norm_num [List.range_succ]

/-- C2: the claim's formulas take square roots of the covariance diagonal
entries, but the code multiplies by the raw variances
(`sigma_err = np.diag(param_cov)[2]`, `mean_err = np.diag(param_cov)[1]`,
with no `np.sqrt` applied).  At a fit with `Var(sigma) = cov[2][2] = 4`,
`Var(mean) = 0`, `mean = stddev = 1` the two disagree: the code's
`fwhm_err` is `2√(2ln2) · 4` while the claim's is `2√(2ln2) · 2`, and the
resulting `frac_err` values differ accordingly. -/
theorem c2_fwhm_err_missing_sqrt :
    fwhm_err diag0 = gaussSigmaToFwhm * 4 ∧
    fwhm_err_claim diag0 = gaussSigmaToFwhm * 2 ∧
    fwhm_err diag0 ≠ fwhm_err_claim diag0 ∧
    frac_err diag0 ≠ frac_err_claim diag0 := by
  have hlog : 0 < Real.log 2 := Real.log_pos (by norm_num)
  have hc : 0 < gaussSigmaToFwhm := by
    unfold gaussSigmaToFwhm
    have h := Real.sqrt_pos.mpr (by linarith : (0 : ℝ) < 2 * Real.log 2)
    linarith
  have h4 : Real.sqrt 4 = 2 := by
    rw [show (4 : ℝ) = 2 ^ 2 by norm_num, Real.sqrt_sq (by norm_num : (0 : ℝ) ≤ 2)]
  have hcov22 : diag0.cov 2 2 = 4 := by simp [diag0]
  have hcov11 : diag0.cov 1 1 = 0 := by simp [diag0]
  have hmean : diag0.mean = 1 := rfl
  have hstd : diag0.stddev = 1 := rfl
  have e1 : fwhm_err diag0 = gaussSigmaToFwhm * 4 := by
    unfold fwhm_err sigma_err
    rw [hcov22]
  have e2 : fwhm_err_claim diag0 = gaussSigmaToFwhm * 2 := by
    unfold fwhm_err_claim
    rw [hcov22, h4]
  have e3 : frac_err diag0 = gaussSigmaToFwhm * 4 := by
    unfold frac_err fwhmOf mean_err
    rw [e1, hcov11, hmean, hstd]
    rw [show gaussSigmaToFwhm * 1 * 0 / 1 = 0 from by ring]
    norm_num
    exact Real.sqrt_sq (by linarith : (0 : ℝ) ≤ gaussSigmaToFwhm * 4)
  have e4 : frac_err_claim diag0 = gaussSigmaToFwhm * 2 := by
    unfold frac_err_claim fwhmOf
    rw [e2, hcov11, hmean, hstd, Real.sqrt_zero]
    rw [show gaussSigmaToFwhm * 1 * 0 / 1 = 0 from by ring]
    norm_num
    exact Real.sqrt_sq (by linarith : (0 : ℝ) ≤ gaussSigmaToFwhm * 2)
  refine ⟨e1, e2, ?_, ?_⟩
  · rw [e1, e2]
    intro h
    have h42 := mul_left_cancel₀ (ne_of_gt hc) h
    norm_num at h42
  · rw [e3, e4]
    intro h
    have h42 := mul_left_cancel₀ (ne_of_gt hc) h
    norm_num at h42

/-- C3 counterexample: a stimulated event (`stim == true`) at pixel (5,5)
inside the validity window IS included in `quick_gain`'s per-pixel
selection, contradicting the claim that stim events are excluded; the
spec's filtered selection would be empty. -/
theorem c3_counterexample :
    channelsAt [evStim] 5 5 = [4200] ∧ channelsAtSpec [evStim] 5 5 = [] :=
  ⟨by decide, by decide⟩

/-- C3 amended: `quick_gain` selects events at a pixel purely by
coordinates within the temperature window; neither `stim == true` nor
`channel <= 0` excludes an event from the selected sub-sequence. -/
theorem c3_amended_selection_ignores_stim (events : List Event) (x y : ℕ) (e : Event)
    (hw : e ∈ windowEvents events) (hx : e.rawx = x) (hy : e.rawy = y) :
    e.ph ∈ channelsAt events x y :=
  List.mem_map.mpr ⟨e, List.mem_filter.mpr ⟨hw, by simp [hx, hy]⟩, rfl⟩

theorem c3_amended_witness : (4200 : ℚ) ∈ channelsAt [evStim] 5 5 :=
  c3_amended_selection_ignores_stim [evStim] 5 5 evStim (by decide) rfl rfl

/-- C4 counterexample: for a sequence in which no event is ever valid,
`np.argmax` of the all-`False` mask returns 0 both forwards and reversed,
so `START = 0` and `END = len` — the window is the FULL sequence of 2
events, not the claimed empty range `start == end == 0`. -/
theorem c4_counterexample :
    windowStart [evCold, evCold] = 0 ∧ windowEnd [evCold, evCold] = 2 ∧
    ¬(windowStart [evCold, evCold] = 0 ∧ windowEnd [evCold, evCold] = 0) ∧
    windowEvents [evCold, evCold] = [evCold, evCold] := by
  decide

/-- C4 amended: when no event's validity signal (`temperature > -20`)
holds, the window is `start = 0`, `end = length` — the whole sequence —
so downstream components process every event, not zero events. -/
theorem c4_amended_all_invalid_full_window (events : List Event)
    (h : ∀ e ∈ events, ¬((-20 : ℚ) < e.temp)) :
    windowStart events = 0 ∧ windowEnd events = events.length ∧
    windowEvents events = events := by
  have hmask : ∀ b ∈ tempMask events, b = false := by
    intro b hb
    rcases List.mem_map.mp hb with ⟨e, he, rfl⟩
    simpa using h e he
  have hany : (tempMask events).any (fun b => b) = false := by
    rw [List.any_eq_false]
    intro b hb
    simp [hmask b hb]
  have hanyr : (tempMask events).reverse.any (fun b => b) = false := by
    rw [List.any_eq_false]
    intro b hb
    simp [hmask b (List.mem_reverse.mp hb)]
  have hs : windowStart events = 0 := by
    unfold windowStart argmaxBool
    rw [if_neg (by simp [hany])]
  have he2 : windowEnd events = events.length := by
    unfold windowEnd argmaxBool
    rw [if_neg (by simp [hanyr])]
    simp [tempMask]
  refine ⟨hs, he2, ?_⟩
  unfold windowEvents
  rw [hs, he2, List.drop_zero, List.take_length]

theorem c4_amended_witness :
    windowStart [evCold] = 0 ∧ windowEnd [evCold] = 1 ∧
    windowEvents [evCold] = [evCold] :=
  c4_amended_all_invalid_full_window [evCold] (by decide)

/-- C5 counterexample: `Line.__init__` performs no validation, so a line
with `search_low = 6000 >= search_high = 3000` is constructed normally; no
`InputError` is raised before computation.  Instead, the per-pixel loop
itself runs and dies there: at the first pixel with selected events the
empty-slice `np.argmax` raises a `ValueError`. -/
theorem c5_counterexample :
    Line.init "Bad" (12206/100) 6000 3000 = badLine ∧
    gainAt [evA] badLine orcNone p00 = .err .valueError :=
  ⟨rfl, by decide⟩

/-- C5 amended: no validation ever happens at line construction
(`Line.init` just stores its arguments); with `search_low >= search_high`
the failure surfaces only inside the per-pixel loop of `quick_gain`, as a
`ValueError` from `np.argmax` of the empty search slice, at any pixel with
selected events. -/
theorem c5_amended_error_inside_pixel_loop (line : Line) (events : List Event)
    (orc : Oracle) (p : Pix) (h : line.chan_high ≤ line.chan_low)
    (hne : channelsAt events p.2.val p.1.val ≠ []) :
    gainAt events line orc p = .err .valueError ∧
    Line.init line.source line.energy line.chan_low line.chan_high = line := by
  refine ⟨pixelGain_err_badline line _ orc h hne, ?_⟩
  cases line
  rfl

theorem c5_amended_witness :
    gainAt [evA] badLineEq orcNone p00 = .err .valueError :=
  (c5_amended_error_inside_pixel_loop badLineEq [evA] orcNone p00 (by decide) (by decide)).1

set_option maxRecDepth 20000 in
/-- C6 counterexample: a well-formed line (`search_low = 9790 <
search_high = 9810`) with a single event at channel 9800 locates the
centroid in bin 9799, so `fit_channels = arange(9699, 9999)` reaches index
9998 of the 9998-length spectrum and `spectrum[fit_channels]` raises an
`IndexError` that escapes the per-pixel loop — refuting "in no case is an
error raised or propagated out of the per-pixel loop". -/
theorem c6_counterexample :
    lineHi.chan_low < lineHi.chan_high ∧
    pixelGain lineHi [(9800 : ℚ)] orcNone = .err .indexError :=
  ⟨by decide, by decide⟩

/-- C6 amended: when the line's search window also keeps the fit window
inside the histogram (`chan_high ≤ 9799`, true of both repository
presets), the per-pixel step of `quick_gain` never raises: with zero
selected events the entry stays 0; when the fitter returns a covariance
matrix the entry becomes `line.energy / mean`; when it does not, the entry
stays 0.  But whenever the located centroid reaches past channel 9798
(possible for a well-formed line with a higher search window),
`spectrum[fit_channels]` indexes past the end of the spectrum and an
`IndexError` propagates out of the per-pixel loop. -/
theorem c6_amended_fit_outcomes (line : Line) (channels : List ℚ) (orc : Oracle)
    (h1 : line.chan_low < line.chan_high) :
    (line.chan_high ≤ 9799 →
      (∃ v, pixelGain line channels orc = .ok v) ∧
      (channels = [] → pixelGain line channels orc = .ok 0) ∧
      (∀ c, centroidOf (spectrumOf channels) line.chan_low line.chan_high = .ok c →
        channels ≠ [] →
        (orc c (spectrumOf channels) = none → pixelGain line channels orc = .ok 0) ∧
        (∀ m, orc c (spectrumOf channels) = some m →
          pixelGain line channels orc = .ok (line.energy / m)))) ∧
    (∀ c, centroidOf (spectrumOf channels) line.chan_low line.chan_high = .ok c →
      channels ≠ [] → specLen < c + 200 →
      pixelGain line channels orc = .err .indexError) := by
  constructor
  · intro h2
    by_cases hch : channels = []
    · subst hch
      refine ⟨⟨0, pixelGain_nil line orc⟩, fun _ => pixelGain_nil line orc, ?_⟩
      intro c _ hne
      exact absurd rfl hne
    · obtain ⟨c, hc, hlo, hhi⟩ := centroidOf_ok (spectrumOf channels) _ _ h1 h2
      have hcb : ¬ specLen < c + 200 := by unfold specLen; omega
      refine ⟨?_, fun h => absurd h hch, ?_⟩
      · cases ho : orc c (spectrumOf channels) with
        | none => exact ⟨0, pixelGain_nocov line channels orc c hch hc hcb ho⟩
        | some m =>
          exact ⟨line.energy / m, pixelGain_success line channels orc c m hch hc hcb ho⟩
      · intro c2 hc2 _
        have hcc : c2 = c := by
          rw [hc] at hc2
          injection hc2 with h3
          exact h3.symm
        subst hcc
        exact ⟨fun ho => pixelGain_nocov line channels orc c2 hch hc hcb ho,
          fun m ho => pixelGain_success line channels orc c2 m hch hc hcb ho⟩
  · intro c hc hne hcb
    exact pixelGain_overflow line channels orc c hne hc hcb

theorem c6_witness : pixelGain am [] orcNone = .ok 0 :=
  ((c6_amended_fit_outcomes am [] orcNone (by decide)).1 (by decide)).2.1 rfl

/-- C7: each interpolation pass of `quick_gain` sets every still-zero
pixel whose padded 3x3 neighbourhood contains a nonzero value to the mean
of exactly the nonzero neighbours (their sum divided by their count);
`quick_gain` runs exactly two such passes; and in the spec's scenario (a
zero pixel with 4 neighbours of gain 2 and 4 of gain 0) pass 1 yields
gain 2. -/
theorem c7_interpolation_mean_of_nonzero :
    (∀ g p, g p = 0 → countNZ (nbhd g p) ≠ 0 →
      codePass g p =
        ((nbhd g p).filter (fun q => decide (q ≠ 0))).sum / (countNZ (nbhd g p) : ℚ)) ∧
    (∀ events line orc,
      quick_gain events line orc = codePass (codePass (gainMap0 events line orc))) ∧
    codePass gScen pScen = 2 := by
  refine ⟨?_, fun _ _ _ => rfl, ?_⟩
  · intro g p h0 hc
    rw [codePass_eq_interpPass]
    unfold interpPass
    rw [if_pos ⟨h0, hc⟩]
    unfold fillVal
    rw [sum_filter_nz]
  · rw [codePass_eq_interpPass]
    unfold interpPass
    rw [if_pos (show gScen pScen = 0 ∧ countNZ (nbhd gScen pScen) ≠ 0 from by decide)]
    unfold fillVal
    rw [show nbhd gScen pScen = [0, 2, 0, 2, 0, 2, 0, 2, 0] from by decide,
      show countNZ [(0 : ℚ), 2, 0, 2, 0, 2, 0, 2, 0] = 4 from by decide]
    norm_num

theorem c7_witness :
    codePass gScen pScen =
      ((nbhd gScen pScen).filter (fun q => decide (q ≠ 0))).sum /
        (countNZ (nbhd gScen pScen) : ℚ) :=
  c7_interpolation_mean_of_nonzero.1 gScen pScen (by decide) (by decide)

/-- C8: an interpolation pass never writes a pixel that is already
nonzero, a pass leaves a pixel with an all-zero padded neighbourhood at 0
(so a hypothetical third pass changes no nonzero value and fills no such
pixel), and a fit-stage entry that is nonzero survives both passes of
`quick_gain` unchanged. -/
theorem c8_nonzero_never_overwritten :
    (∀ g p, g p ≠ 0 → codePass g p = g p) ∧
    (∀ g p, (∀ q ∈ nbhd g p, q = 0) → codePass g p = 0) ∧
    (∀ events line orc p, gainMap0 events line orc p ≠ 0 →
      quick_gain events line orc p = gainMap0 events line orc p) := by
  have h1 : ∀ g p, g p ≠ 0 → codePass g p = g p := by
    intro g p h
    rw [codePass_eq_interpPass]
    unfold interpPass
    rw [if_neg (fun hand => h hand.1)]
  refine ⟨h1, ?_, ?_⟩
  · intro g p hall
    have h0 : g p = 0 := hall _ (center_mem_nbhd g p)
    have hcz : countNZ (nbhd g p) = 0 := (countNZ_eq_zero_iff _).mpr hall
    rw [codePass_eq_interpPass]
    unfold interpPass
    rw [if_neg (fun hand => hand.2 hcz)]
    exact h0
  · intro events line orc p h
    have e1 := h1 _ _ h
    have h2 : codePass (gainMap0 events line orc) p ≠ 0 := by
      rw [e1]
      exact h
    unfold quick_gain
    rw [h1 _ _ h2, e1]

theorem c8_witness :
    codePass gScen p01 = gScen p01 ∧ codePass gZero p00 = 0 ∧
    quick_gain [evA] lineSmall orcPos p00 = gainMap0 [evA] lineSmall orcPos p00 :=
  ⟨c8_nonzero_never_overwritten.1 gScen p01 (by decide),
   c8_nonzero_never_overwritten.2.1 gZero p00 (by decide),
   c8_nonzero_never_overwritten.2.2 [evA] lineSmall orcPos p00 (by
     rw [gainMap0_eq [evA] lineSmall orcPos p00 (lineSmall.energy / 1)
       (gainAt_evA_lineSmall orcPos 1 rfl)]
     norm_num [lineSmall, Line.init])⟩

/-- C9 counterexample: nothing in the code constrains the fitted mean to
be positive; with a fitter returning mean `-1` at a pixel with events, the
fit-stage gain entry is `energy / (-1) < 0`, so the gain map is not
non-negative at every point of the run. -/
theorem c9_counterexample : gainMap0 [evA] lineSmall orcNeg p00 < 0 := by
  rw [gainMap0_eq [evA] lineSmall orcNeg p00 (lineSmall.energy / (-1))
    (gainAt_evA_lineSmall orcNeg (-1) rfl)]
  norm_num [lineSmall, Line.init]

/-- C9 amended: if the line energy is positive and every mean the fitter
returns is positive, then every gain entry is non-negative after the fit
stage and after both interpolation passes, and a pixel whose fit succeeded
(covariance returned) has a strictly positive gain. -/
theorem c9_amended_nonneg (events : List Event) (line : Line) (orc : Oracle)
    (hE : 0 < line.energy) (hO : ∀ c s m, orc c s = some m → 0 < m) :
    (∀ p, 0 ≤ gainMap0 events line orc p) ∧
    (∀ p, 0 ≤ quick_gain events line orc p) ∧
    (∀ p c m, channelsAt events p.2.val p.1.val ≠ [] →
      centroidOf (spectrumOf (channelsAt events p.2.val p.1.val))
        line.chan_low line.chan_high = .ok c →
      ¬ specLen < c + 200 →
      orc c (spectrumOf (channelsAt events p.2.val p.1.val)) = some m →
      0 < gainMap0 events line orc p) := by
  have hga : ∀ p, 0 ≤ gainMap0 events line orc p := by
    intro p
    unfold gainMap0
    cases hg : gainAt events line orc p with
    | err e => exact le_refl 0
    | ok v =>
      dsimp only
      rcases pixelGain_ok_cases line _ orc v hg with h0 | ⟨c, m, _, ho, hv⟩
      · rw [h0]
      · rw [hv]
        exact le_of_lt (div_pos hE (hO _ _ _ ho))
  refine ⟨hga, ?_, ?_⟩
  · intro p
    unfold quick_gain
    simp only [codePass_eq_interpPass]
    exact interpPass_nonneg _ (fun q => interpPass_nonneg _ hga q) p
  · intro p c m hne hc hcb ho
    unfold gainMap0
    rw [show gainAt events line orc p = .ok (line.energy / m) from
      pixelGain_success line _ orc c m hne hc hcb ho]
    dsimp only
    exact div_pos hE (hO _ _ _ ho)

theorem c9_amended_witness :
    0 ≤ gainMap0 [evA] lineSmall orcPos p00 ∧
    0 ≤ quick_gain [evA] lineSmall orcPos p00 := by
  have h := c9_amended_nonneg [evA] lineSmall orcPos (by decide)
    (fun c s m hm => by
      have h1 : (1 : ℚ) = m := by simpa [orcPos] using hm
      rw [← h1]
      norm_num)
  exact ⟨h.1 p00, h.2.1 p00⟩

/-- C10: within one interpolation pass, every fill value is computed from
the snapshot (`newgain`) taken at the start of the pass, so the pass's
result depends only on which pixels are listed, not on their order, and
the loop over the sentinel pixels computes exactly the pointwise
(snapshot-semantics) pass. -/
theorem c10_pass_snapshot_order_independent :
    (∀ g (l1 l2 : List Pix), (∀ p, p ∈ l1 ↔ p ∈ l2) →
      interpLoop g l1 g = interpLoop g l2 g) ∧
    (∀ g, codePass g = interpPass g) := by
  refine ⟨?_, codePass_eq_interpPass⟩
  intro g l1 l2 hmem
  funext p
  rw [interpLoop_spec, interpLoop_spec]
  simp only [hmem]

theorem c10_witness :
    interpLoop gScen [pScen, p01] gScen = interpLoop gScen [p01, pScen] gScen :=
  c10_pass_snapshot_order_independent.1 gScen [pScen, p01] [p01, pScen]
    (fun p => by simp only [List.mem_cons, List.not_mem_nil, or_false]; tauto)

end Gamma
